import Mathlib

/-!
Verification development for the dual-criticality (AMC) real-time scheduler
simulator and its schedulability analyzer.

The Rust source is shallowly embedded:

* the machine integers `TimeUnit = u64` and `TaskId = u64` become `Nat`;
  none of the analyzed computations rely on wrap-around, and saturating
  operations are noted where they occur;
* the analyzer's `f32` intermediate values become exact rationals `ℚ`
  (all analyzer intermediates are integer-valued, and for inputs below the
  `f32` precision threshold the float computation is exact);
* a Rust panic (an `unwrap()` of `None`) is modelled by an outer `Option`
  layer: `none` means the function panics, `some v` that it returns `v`;
* the `HashMap<TaskId, f32>` of cached response times becomes a function
  `Nat → Option ℚ`.
-/

namespace RTSim

/-- Scheduler criticality mode (`SimulatorMode` in `simulator/mod.rs`). -/
inductive SimulatorMode : Type
  | LMode
  | HMode
deriving DecidableEq, Repr

/-- Immutable task parameters (`TaskProps` in `simulator/task.rs`). -/
structure TaskProps : Type where
  id : Nat
  wcet_l : Nat
  wcet_h : Nat
  offset : Nat
  period : Nat
deriving DecidableEq, Repr

/-- Mode-dependent WCET lookup (`TaskProps::wcet_in_mode`). -/
def TaskProps.wcet_in_mode (p : TaskProps) (mode : SimulatorMode) : Nat :=
  match mode with
  | .LMode => p.wcet_l
  | .HMode => p.wcet_h

/-- Criticality-tagged task (`Task` in `simulator/task.rs`). -/
inductive Task : Type
  | LTask (props : TaskProps)
  | HTask (props : TaskProps)
deriving DecidableEq, Repr

def Task.props : Task → TaskProps
  | .LTask p => p
  | .HTask p => p

/-- `matches!(t.task, Task::HTask(_))`, used throughout the source. -/
def Task.isHTask : Task → Bool
  | .LTask _ => false
  | .HTask _ => true

def Task.withWcetL : Task → Nat → Task
  | .LTask p, w => .LTask { p with wcet_l := w }
  | .HTask p, w => .HTask { p with wcet_l := w }

/-- `Task::set_id`. -/
def Task.withId : Task → Nat → Task
  | .LTask p, i => .LTask { p with id := i }
  | .HTask p, i => .HTask { p with id := i }

/-- `SimulatorTask` in `simulator/task.rs`. -/
structure SimulatorTask : Type where
  task : Task
  custom_priority : Option Nat
  acet : Nat
  bcet : Nat
  next_arrival : Nat
deriving DecidableEq, Repr

/-- Modelled from the spec: the method `SimulatorTask::priority` is called by
`simulator/validation.rs` but its definition is not among the repository's
files. Per the spec's data model, a task's priority is its optional custom
priority, and otherwise derives from its period (shorter period = higher
priority, rate monotonic); in all comparisons a smaller number means higher
priority. -/
def SimulatorTask.priority (t : SimulatorTask) : Nat :=
  t.custom_priority.getD t.task.props.period

/-- `SimulatorTask::new_with_custom_priority` (asserts `acet > 0`;
`bcet := acet`, `next_arrival := offset`). -/
def SimulatorTask.new_with_custom_priority (task : Task) (priority : Nat)
    (acet : Nat) : SimulatorTask :=
  { task := task
    custom_priority := some priority
    acet := acet
    bcet := acet
    next_arrival := task.props.offset }

/-- Cached low-mode response times (`HashMap<TaskId, f32>` idealized over
exact rationals). -/
abbrev RTCache : Type := Nat → Option ℚ

/-- Exact ceiling division on naturals, `(a + b - 1) / b`; `cdiv a 0 = 0`,
matching the rational convention `q / 0 = 0` used to model the `f32`
division. -/
def cdiv (a b : Nat) : Nat :=
  (a + b - 1) / b

/-- One step of the response-time recurrence of `response_time` in
`simulator/validation.rs`, over exact rationals standing for the source's
`f32` values: `wcet + Σ over higher-priority t of ceil(r / period t) * wcet t`. -/
def rtStep (wcet : ℚ) (hp : List SimulatorTask) (mode : SimulatorMode) (r : ℚ) : ℚ :=
  wcet + (hp.map fun t =>
    ((⌈r / (t.task.props.period : ℚ)⌉ : ℤ) : ℚ) * (t.task.props.wcet_in_mode mode : ℚ)).sum

/-- The `for _ in 0..100` loop of `response_time`: iterate `rtStep`, returning
the value at the first fixed point, `none` when the fuel (100 in the source)
runs out. -/
def rtLoop (wcet : ℚ) (hp : List SimulatorTask) (mode : SimulatorMode) :
    Nat → ℚ → Option ℚ
  | 0, _ => none
  | fuel + 1, r =>
    let r' := rtStep wcet hp mode r
    if r' = r then some r' else rtLoop wcet hp mode fuel r'

/-- `response_time` in `simulator/validation.rs`: the classic response-time
recurrence seeded at the task's WCET in `mode`, iterated at most 100 times;
the final `new_response_time.ceil() as TimeUnit` is the ceiling cast. -/
def response_time (task : SimulatorTask) (tasks : List SimulatorTask)
    (mode : SimulatorMode) : Option Nat :=
  let wcet := task.task.props.wcet_in_mode mode
  let hp := tasks.filter fun t => t.priority < task.priority
  (rtLoop (wcet : ℚ) hp mode 100 (wcet : ℚ)).map fun q => (⌈q⌉ : ℤ).toNat

/-- One step of the spec's recurrence, over naturals with exact ceiling
division. -/
def rtStepN (wcet : Nat) (hp : List SimulatorTask) (mode : SimulatorMode) (r : Nat) : Nat :=
  wcet + (hp.map fun t =>
    cdiv r t.task.props.period * t.task.props.wcet_in_mode mode).sum

/-- Natural-number twin of `rtLoop`. -/
def rtLoopN (wcet : Nat) (hp : List SimulatorTask) (mode : SimulatorMode) :
    Nat → Nat → Option Nat
  | 0, _ => none
  | fuel + 1, r =>
    let r' := rtStepN wcet hp mode r
    if r' = r then some r' else rtLoopN wcet hp mode fuel r'

/-- Second definition for the refinement claim, following the spec's words:
`R₀ = WCET(task, mode)`, `Rₙ₊₁ = WCET(task, mode) + Σ over higher-priority t
of ceil(Rₙ / period t) * WCET(t, mode)` over exact integer time units, at
most 100 iterations, returning the fixed point when `Rₙ₊₁ = Rₙ` and `none`
otherwise. -/
def responseTimeSpec (task : SimulatorTask) (tasks : List SimulatorTask)
    (mode : SimulatorMode) : Option Nat :=
  let wcet := task.task.props.wcet_in_mode mode
  let hp := tasks.filter fun t => t.priority < task.priority
  rtLoopN wcet hp mode 100 wcet

/-- Round a rational to the nearest integer, ties to even: the integer-scale
core of IEEE-754 round-to-nearest-even. -/
def rne (x : ℚ) : ℤ :=
  let f := ⌊x⌋
  if x - f < 1 / 2 then f
  else if 1 / 2 < x - f then f + 1
  else if f % 2 = 0 then f else f + 1

/-- Round a positive rational to the nearest `f32` value: scale by the power
of two that brings the 24-bit significand to the integer range, round to the
nearest integer (ties to even) and scale back. -/
def froundPos (a : ℚ) : ℚ :=
  let scale : ℚ := 2 ^ (Int.log 2 a - 23)
  (rne (a / scale) : ℚ) * scale

/-- IEEE-754 `binary32` rounding (round to nearest, ties to even) on the
normal range. Overflow to infinity and gradual underflow are not modelled:
the analyzer's magnitudes sit far inside the normal range, and `fround 0 = 0`
covers the exact zero the empty interference sum produces. -/
def fround (q : ℚ) : ℚ :=
  if q = 0 then 0
  else if q < 0 then -froundPos (-q)
  else froundPos q

/-- The `u64 as f32` cast: the integer's value, rounded to `f32`. -/
def f32ofNat (n : Nat) : ℚ :=
  fround (n : ℚ)

/-- `f32` addition: the exact sum, rounded. -/
def fadd (a b : ℚ) : ℚ :=
  fround (a + b)

/-- `f32` multiplication: the exact product, rounded. -/
def fmul (a b : ℚ) : ℚ :=
  fround (a * b)

/-- `f32` division: the exact quotient, rounded (with the `q / 0 = 0`
convention of the exact model for a zero period). -/
def fdiv (a b : ℚ) : ℚ :=
  fround (a / b)

/-- One step of the `response_time` recurrence with the source's `f32`
arithmetic modelled faithfully: the period and WCET casts, the division, the
product and every partial sum of `.sum::<f32>()` (a left fold from `0.0`)
round to 24-bit significand. `f32::ceil` itself is exact — integers below
`2^24` are representable and every `f32` value of magnitude at least `2^24`
is already an integer — so the ceiling introduces no rounding. -/
def rtStepF32 (wcetF : ℚ) (hp : List SimulatorTask) (mode : SimulatorMode) (r : ℚ) : ℚ :=
  fadd wcetF (hp.foldl (fun acc t =>
    fadd acc (fmul ((⌈fdiv r (f32ofNat t.task.props.period)⌉ : ℤ) : ℚ)
      (f32ofNat (t.task.props.wcet_in_mode mode)))) 0)

/-- The `for _ in 0..100` loop of `response_time` over the `f32` model;
`f32` equality on the finite values in play is equality of the represented
rationals. -/
def rtLoopF32 (wcetF : ℚ) (hp : List SimulatorTask) (mode : SimulatorMode) :
    Nat → ℚ → Option ℚ
  | 0, _ => none
  | fuel + 1, r =>
    let r' := rtStepF32 wcetF hp mode r
    if r' = r then some r' else rtLoopF32 wcetF hp mode fuel r'

/-- `response_time` re-embedded over the faithful `f32` model: the seed
`wcet as f32` and every arithmetic step round to 24-bit significand. The
idealized `response_time` above agrees with this model while every value in
play stays below the `2^24` precision threshold; claim C2's counterexample
exhibits their divergence above it. -/
def response_time_f32 (task : SimulatorTask) (tasks : List SimulatorTask)
    (mode : SimulatorMode) : Option Nat :=
  let wcet := task.task.props.wcet_in_mode mode
  let hp := tasks.filter fun t => t.priority < task.priority
  (rtLoopF32 (f32ofNat wcet) hp mode 100 (f32ofNat wcet)).map fun q => (⌈q⌉ : ℤ).toNat

/-- The cached-or-computed low-mode response time used by
`response_time_in_mode_changes` and by the eq. 5 block of
`feasible_mode_changes`: a cache hit is used as is, otherwise
`response_time(t, tasks, LMode).unwrap() as f32`. `none` models the
`unwrap()` panicking. -/
def cachedRespL (cache : RTCache) (t : SimulatorTask) (tasks : List SimulatorTask) :
    Option ℚ :=
  match cache t.task.props.id with
  | some r => some r
  | none => (response_time t tasks .LMode).map fun n => (n : ℚ)

/-- Elementwise fallible evaluation, left to right; the first panic aborts
(the Rust iterator chain evaluates its panicking closure per element). -/
def mapOption (f : α → Option β) : List α → Option (List β)
  | [] => some []
  | a :: l =>
    match f a, mapOption f l with
    | some b, some bs => some (b :: bs)
    | _, _ => none

/-- `interference_by_ltasks` in `response_time_in_mode_changes`: sum over
lower-priority-number L-tasks of `(R_lo / period).ceil() as TimeUnit * wcet_l`.
`none` models a panic of the inner `unwrap()`. -/
def interferenceLTasks (task : SimulatorTask) (tasks : List SimulatorTask)
    (cache : RTCache) : Option Nat :=
  (mapOption (fun t =>
    (cachedRespL cache t tasks).map fun q =>
      (⌈q / (t.task.props.period : ℚ)⌉ : ℤ).toNat * t.task.props.wcet_in_mode .LMode)
    (tasks.filter fun t => !t.task.isHTask && t.priority < task.priority)).map List.sum

/-- `interference_by_htasks` evaluated at a given candidate response time `r`:
sum over higher-priority H-tasks of `(r / period).ceil() as TimeUnit * wcet_h`.
The approximate branch instantiates `r` with the analyzed task's own period. -/
def hInterferenceAt (task : SimulatorTask) (tasks : List SimulatorTask) (r : Nat) :
    Nat :=
  ((tasks.filter fun t => t.task.isHTask && t.priority < task.priority).map fun t =>
    cdiv r t.task.props.period * t.task.props.wcet_in_mode .HMode).sum

/-- The exact (`APPROXIMATE = false`) fixed-point loop of
`response_time_in_mode_changes`: `new = wcet_h + interference_by_htasks +
interference_by_ltasks`, at most 100 iterations. -/
def rtimcLoop (whp : Nat) (task : SimulatorTask) (tasks : List SimulatorTask)
    (lint : Nat) : Nat → Nat → Option Nat
  | 0, _ => none
  | fuel + 1, r =>
    let r' := whp + hInterferenceAt task tasks r + lint
    if r' = r then some r' else rtimcLoop whp task tasks lint fuel r'

/-- `response_time_in_mode_changes::<APPROXIMATE>` in
`simulator/validation.rs`. The outer `Option` models panics; the inner one is
the Rust return value (`none` for a non-HTask and for fixed-point
divergence). -/
def response_time_in_mode_changes (approximate : Bool) (task : SimulatorTask)
    (tasks : List SimulatorTask) (cache : RTCache) : Option (Option Nat) :=
  if !task.task.isHTask then some none
  else
    match interferenceLTasks task tasks cache with
    | none => none
    | some lint =>
      let whp := task.task.props.wcet_in_mode .HMode
      if approximate then
        some (some (whp + lint + hInterferenceAt task tasks task.task.props.period))
      else
        some (rtimcLoop whp task tasks lint 100 whp)

/-- The eq. 5 interference of `feasible_mode_changes::<true>`: sum over all
strictly-higher-priority tasks (of any criticality) of
`(R_lo / period).ceil() as TimeUnit * wcet_l`. -/
def eq5Interference (task : SimulatorTask) (tasks : List SimulatorTask)
    (cache : RTCache) : Option Nat :=
  (mapOption (fun t =>
    (cachedRespL cache t tasks).map fun q =>
      (⌈q / (t.task.props.period : ℚ)⌉ : ℤ).toNat * t.task.props.wcet_in_mode .LMode)
    (tasks.filter fun t => t.priority < task.priority)).map List.sum

/-- The eq. 5 necessary-condition loop of `feasible_mode_changes::<true>`,
over the eligible (H) tasks; interference and response times are taken over
the full task list. `response_time_lo as TimeUnit` is the truncating
`f32 → u64` cast, floor for non-negative values. -/
def eq5Check (tasks : List SimulatorTask) (cache : RTCache) :
    List SimulatorTask → Option Bool
  | [] => some true
  | task :: rest =>
    match eq5Interference task tasks cache, cachedRespL cache task tasks with
    | some intf, some rlo =>
      if task.task.props.wcet_in_mode .LMode + intf > (⌊rlo⌋ : ℤ).toNat then some false
      else eq5Check tasks cache rest
    | _, _ => none

/-- The AMC-rtb (eq. 6) loop of `feasible_mode_changes`: every eligible task
must get a mode-change response time of at most its period; a `None` from
`response_time_in_mode_changes` rejects. -/
def amcCheck (approximate : Bool) (eligible : List SimulatorTask) (cache : RTCache) :
    List SimulatorTask → Option Bool
  | [] => some true
  | task :: rest =>
    match response_time_in_mode_changes approximate task eligible cache with
    | none => none
    | some none => some false
    | some (some r) =>
      if r > task.task.props.period then some false
      else amcCheck approximate eligible cache rest

/-- `feasible_mode_changes::<APPROXIMATE>` in `simulator/validation.rs`.
Note that the AMC-rtb loop passes `eligible_tasks` (the H-tasks only), not
the full task list, to `response_time_in_mode_changes`. -/
def feasible_mode_changes (approximate : Bool) (tasks : List SimulatorTask)
    (cache : RTCache) : Option Bool :=
  let eligible := tasks.filter fun t => t.task.isHTask
  match (if approximate then eq5Check tasks cache eligible else some true) with
  | none => none
  | some false => some false
  | some true => amcCheck approximate eligible cache eligible

/-- The eligible task list of `feasible_in_mode`: every task in `LMode`,
only the H-tasks in `HMode`. -/
def eligible_in_mode (tasks : List SimulatorTask) (mode : SimulatorMode) :
    List SimulatorTask :=
  match mode with
  | .LMode => tasks
  | .HMode => tasks.filter fun t => t.task.isHTask

/-- The per-task test of `feasible_in_mode`: non-zero WCET in the mode, a
converging response time, and response time at most the period. -/
def fimCheck (eligible : List SimulatorTask) (mode : SimulatorMode)
    (t : SimulatorTask) : Bool :=
  !(t.task.props.wcet_in_mode mode == 0) &&
    match response_time t eligible mode with
    | some r => !(t.task.props.period < r)
    | none => false

/-- `feasible_in_mode` in `simulator/validation.rs` (no panic source in its
body, so it is a plain `Bool`). -/
def feasible_in_mode (tasks : List SimulatorTask) (mode : SimulatorMode) : Bool :=
  (eligible_in_mode tasks mode).all (fimCheck (eligible_in_mode tasks mode) mode)

/-- `feasible_schedule_design_time`: L-mode and H-mode feasibility plus the
exact mode-change check with an empty cache; `&&` short-circuits. -/
def feasible_schedule_design_time (tasks : List SimulatorTask) : Option Bool :=
  if feasible_in_mode tasks .LMode then
    if feasible_in_mode tasks .HMode then
      feasible_mode_changes false tasks (fun _ => none)
    else some false
  else some false

/-- `feasible_schedule_online`: L-mode feasibility plus the approximate
mode-change check with the supplied cache; `&&` short-circuits. -/
def feasible_schedule_online (tasks : List SimulatorTask) (cache : RTCache) :
    Option Bool :=
  if feasible_in_mode tasks .LMode then feasible_mode_changes true tasks cache
  else some false

/-! ### Agent budget mutations (`agent/mod.rs`) -/

/-- `SimulatorActionPart` in `agent/mod.rs`: a WCET-budget mutation request
(10% increase or 5% decrease of `wcet_l`, computed from `wcet_h`). -/
inductive SimulatorActionPart : Type
  | WcetIncrease (id : Nat)
  | WcetDecrease (id : Nat)
  | None
deriving DecidableEq, Repr

/-- `SimulatorActionPart::task_id`; the Rust method panics on `None`, which
`apply` never reaches (it returns first). -/
def SimulatorActionPart.task_id : SimulatorActionPart → Option Nat
  | .WcetIncrease id => some id
  | .WcetDecrease id => some id
  | .None => none

/-- The mutation amount `(wcet_h as f32 * factor) as TimeUnit` with factor
0.1 or 0.05; the float multiply-and-truncate is idealized as exact floor
division (`wcet_h / 10`, `wcet_h / 20`), which agrees with the `f32`
computation on the small budgets involved. -/
def SimulatorActionPart.amount (a : SimulatorActionPart) (p : TaskProps) : Nat :=
  match a with
  | .WcetIncrease _ => p.wcet_h / 10
  | .WcetDecrease _ => p.wcet_h / 20
  | .None => 0

/-- The in-place `wcet_l` update `apply` performs on the matched task
(`saturating_add` idealized as unbounded addition, `saturating_sub` is exact
truncated subtraction). -/
def SimulatorActionPart.mutate (a : SimulatorActionPart) (t : SimulatorTask) :
    SimulatorTask :=
  match a with
  | .WcetIncrease _ =>
    { t with task := t.task.withWcetL (t.task.props.wcet_l + a.amount t.task.props) }
  | .WcetDecrease _ =>
    { t with task := t.task.withWcetL (t.task.props.wcet_l - a.amount t.task.props) }
  | .None => t

/-- Replace the first task whose id matches (Rust `iter_mut().find(..)`). -/
def replaceFirstTask (tid : Nat) (f : SimulatorTask → SimulatorTask) :
    List SimulatorTask → List SimulatorTask
  | [] => []
  | t :: rest =>
    if t.task.props.id = tid then f t :: rest
    else t :: replaceFirstTask tid f rest

/-- `SimulatorActionPart::apply`: mutate the first task with the targeted id;
`none` models the `unwrap()` panic when no task has that id. -/
def SimulatorActionPart.apply (a : SimulatorActionPart) (tasks : List SimulatorTask) :
    Option (List SimulatorTask) :=
  match a.task_id with
  | none => some tasks
  | some tid =>
    if (tasks.find? fun t => t.task.props.id == tid).isSome then
      some (replaceFirstTask tid a.mutate tasks)
    else none

/-- `SimulatorActionPart::reverse`. -/
def SimulatorActionPart.reverse : SimulatorActionPart → SimulatorActionPart
  | .WcetIncrease id => .WcetDecrease id
  | .WcetDecrease id => .WcetIncrease id
  | .None => .None

/-- `action.iter().for_each(|a| a.apply(..))`: apply the parts left to
right; a panic of any part aborts. -/
def applyParts : List SimulatorActionPart → List SimulatorTask →
    Option (List SimulatorTask)
  | [], tasks => some tasks
  | p :: ps, tasks =>
    match p.apply tasks with
    | none => none
    | some tasks' => applyParts ps tasks'

/-- The mutation-validation block of `SimulatorAgent::activate`
(`agent/mod.rs` lines 262-275): apply every part of the action; when the
action is not a no-op and `feasible_schedule_online` rejects the mutated
task list, apply the reversed parts. `none` models a panic (indexing an
empty action vector, a missing task id, or a panic inside the online
check). -/
def activateMutation (action : List SimulatorActionPart) (tasks : List SimulatorTask)
    (cache : RTCache) : Option (List SimulatorTask) := do
  let ts ← applyParts action tasks
  match action.head? with
  | Option.none => none
  | some .None => some ts
  | some _ =>
    match feasible_schedule_online ts cache with
    | Option.none => none
    | some true => some ts
    | some false => applyParts (action.map SimulatorActionPart.reverse) ts

/-! ### Concrete task sets used by the closed theorems -/

/-- A task with custom priority, zero offset and `acet = bcet = 1`. -/
def mkTask (isH : Bool) (id wl wh per prio : Nat) : SimulatorTask :=
  { task := if isH then .HTask ⟨id, wl, wh, 0, per⟩ else .LTask ⟨id, wl, wh, 0, per⟩
    custom_priority := some prio
    acet := 1
    bcet := 1
    next_arrival := 0 }

/-- Counterexample task set for the approximate-conservativity claim: three
light high-criticality tasks with utilization 41/42 above a heavy one whose
exact mode-change recurrence needs 168 iterations to reach its fixed point
4200, far beyond the 100-iteration bound. -/
def ceTasks : List SimulatorTask :=
  [mkTask true 1 0 1 2 1, mkTask true 2 0 1 3 2,
   mkTask true 3 0 3 21 3, mkTask true 4 0 100 4200 4]

/-- Cache for `ceTasks`: every task's low-mode response time is 0 (all
`wcet_l` are 0), and the cache stores exactly those values. -/
def ceCache : RTCache := fun id => if id ≤ 4 then some 0 else none

/-- Cached low-mode response times consistent with `response_time`: every
cache entry for a task of the set equals what `response_time` computes in
`LMode` over the set. -/
def CacheConsistent (tasks : List SimulatorTask) (cache : RTCache) : Prop :=
  ∀ t ∈ tasks, cache t.task.props.id = none ∨
    cache t.task.props.id = (response_time t tasks .LMode).map fun n => (n : ℚ)

instance decCacheConsistent (tasks : List SimulatorTask) (cache : RTCache) :
    Decidable (CacheConsistent tasks cache) :=
  List.decidableBAll _ tasks

/-- A task set on which `feasible_mode_changes` forgets the L-task
interference: the L-task saturates its period, so the AMC-rtb value of the
H-task per the paper (and the spec) is 5 > period 4, yet the check accepts. -/
def c4Tasks : List SimulatorTask :=
  [mkTask false 1 4 4 4 1, mkTask true 2 1 1 4 2]

/-- The empty response-time cache. -/
def noCache : RTCache := fun _ => none

/-- A small feasible witness set for the amended conservativity claim: both
the approximate and the exact mode-change checks accept it. -/
def cwTasks : List SimulatorTask :=
  [mkTask true 1 0 1 2 1, mkTask true 2 0 1 4 2]

/-- Concrete task for the mutation-reversal claim: `wcet_h = 10`, so an
increase adds `floor(0.1 * 10) = 1` while the reversing decrease subtracts
`floor(0.05 * 10) = 0`. -/
def c5Task : SimulatorTask := mkTask true 1 5 10 100 1

/-- Scenario A of the spec (the repository test `same_criticality_1`): two
L-tasks of period 4, `(wcet_l 1, offset 1, priority 1)` and `(wcet_l 2,
offset 0, priority 2)`, execution times equal to their `wcet_l`. -/
def c9Tasks : List SimulatorTask :=
  [SimulatorTask.new_with_custom_priority (.LTask ⟨1, 1, 1, 1, 4⟩) 1 1,
   SimulatorTask.new_with_custom_priority (.LTask ⟨2, 2, 2, 0, 4⟩) 2 2]

/-- One ordinary task for the agent-infeasibility witness. -/
def c10Tasks : List SimulatorTask := [mkTask false 1 2 2 5 1]

/-- A single task whose WCET `2^25 + 1` (0.33 s and change, at `10^8` time
units per second) is not `f32`-representable: the seed cast of
`response_time` rounds it to `2^25`. -/
def c2Task : SimulatorTask := mkTask true 1 (2 ^ 25 + 1) (2 ^ 25 + 1) (2 ^ 26) 1

/-! ### Discrete-event engine (`simulator/mod.rs`, `simulator/handlers.rs`)

Reference-counted shared cells become id-indexed lookups: events and jobs
reference tasks by the (priority-encoded) task id, and all mutation goes
through the simulator state's task and job lists. The sampled execution
times take the deterministic path of the source (`random_execution_time =
false`, `exec_time = acet`), which is the configuration of every engine test
in the repository; the stochastic path draws from a generator seeded with
the constant 42 inside `Simulator::new` and is equally deterministic per
construction. No agent is attached to the modelled runs, so the
agent-activation hook of `run_job` is a no-op. -/

/-- `MAX_TASKS_SIZE` in `simulator/mod.rs`. -/
def MAX_TASKS_SIZE : Nat := 1000

/-- `EndReason` in `simulator/mod.rs`. -/
inductive EndReason : Type
  | JobCompletion
  | BudgetExceedance
deriving DecidableEq, Repr

/-- The scheduling event queue's entries (only Start and End events are ever
queued). -/
inductive QEvent : Type
  | start (tid : Nat) (time : Nat)
  | finish (tid : Nat) (time : Nat) (reason : EndReason)
deriving DecidableEq, Repr

def QEvent.time : QEvent → Nat
  | .start _ t => t
  | .finish _ t _ => t

def QEvent.taskId : QEvent → Nat
  | .start i _ => i
  | .finish i _ _ => i

/-- The history events (`SimulatorEvent`), task references replaced by ids. -/
inductive HEvent : Type
  | start (tid : Nat) (time : Nat)
  | finish (tid : Nat) (time : Nat) (reason : EndReason)
  | taskKill (tid : Nat) (time : Nat)
  | modeChange (mode : SimulatorMode) (time : Nat)
deriving DecidableEq, Repr

/-- `Ord::cmp for SimulatorEvent`: time ascending (larger = popped first in
the max-heap, hence `gt` for the earlier event), `End` before `Start` at
equal times, then smaller encoded id first. -/
def qcmp : QEvent → QEvent → Ordering
  | .start _ t1, .finish _ t2 _ => if t1 < t2 then .gt else .lt
  | .finish _ t1 _, .start _ t2 => if t2 < t1 then .lt else .gt
  | .start i1 t1, .start i2 t2 =>
    if t1 < t2 then .gt else if t2 < t1 then .lt else (compare i1 i2).swap
  | .finish i1 t1 _, .finish i2 t2 _ =>
    if t1 < t2 then .gt else if t2 < t1 then .lt else (compare i1 i2).swap

/-- The maximum of the event heap under `qcmp` (`BinaryHeap::pop`); the
order has no ties between distinct queued events (distinct tasks have
distinct encoded ids), so selecting the first maximal element is faithful. -/
def popMaxEvent (l : List QEvent) : Option (QEvent × List QEvent) :=
  match l with
  | [] => none
  | e :: rest =>
    let best := rest.foldl (fun b x => if qcmp x b = .gt then x else b) e
    some (best, (e :: rest).erase best)

/-- The ready-job heap orders by encoded task id reversed, so its pop
returns the smallest id (the highest priority). -/
def popMinId (l : List Nat) : Option (Nat × List Nat) :=
  match l with
  | [] => none
  | i :: rest =>
    let best := rest.foldl (fun b x => if x < b then x else b) i
    some (best, (i :: rest).erase best)

/-- Per-task job bookkeeping (`SimulatorJob`); the task back-reference is
the encoded task id, the pending-termination-event reference is dropped
(the source cancels terminations by task id, never through it). -/
structure SimJob : Type where
  execTime : Nat
  runTime : Nat
deriving DecidableEq, Repr

/-- The simulator state (`Simulator` in `simulator/mod.rs`). -/
structure SimState : Type where
  tasks : List SimulatorTask
  jobs : List (Nat × SimJob)
  runningJob : Option Nat
  readyQueue : List Nat
  eventQueue : List QEvent
  eventHistory : List HEvent
  lastContextSwitch : Nat
  now : Nat
  mode : SimulatorMode
  runningHistory : List (Option Nat)
deriving DecidableEq, Repr

def defaultTask : SimulatorTask :=
  { task := .LTask ⟨0, 0, 0, 0, 0⟩, custom_priority := none,
    acet := 0, bcet := 0, next_arrival := 0 }

/-- Task lookup by encoded id (`Rc` sharing replaced by id indirection; ids
are unique after priority encoding). -/
def SimState.findTask (s : SimState) (tid : Nat) : SimulatorTask :=
  (s.tasks.find? fun t => t.task.props.id == tid).getD defaultTask

def SimState.updateTask (s : SimState) (tid : Nat)
    (f : SimulatorTask → SimulatorTask) : SimState :=
  { s with tasks := s.tasks.map fun t => if t.task.props.id == tid then f t else t }

/-- `jobs.get(&id).unwrap()`; every simulated task has a registered job. -/
def SimState.findJob (s : SimState) (tid : Nat) : SimJob :=
  (s.jobs.lookup tid).getD ⟨0, 0⟩

def SimState.updateJob (s : SimState) (tid : Nat) (f : SimJob → SimJob) : SimState :=
  { s with jobs := s.jobs.map fun p => if p.1 = tid then (p.1, f p.2) else p }

def SimState.pushHist (s : SimState) (e : HEvent) : SimState :=
  { s with eventHistory := s.eventHistory ++ [e] }

def SimState.isHId (s : SimState) (tid : Nat) : Bool :=
  (s.findTask tid).task.isHTask

/-- `schedule_termination_event` in `simulator/handlers.rs`. -/
def schedule_termination_event (tid : Nat) (s : SimState) : SimState :=
  let job := s.findJob tid
  let props := (s.findTask tid).task.props
  let te :=
    if s.mode = .LMode ∧ props.wcet_l < job.execTime then
      QEvent.finish tid (s.now + props.wcet_l - job.runTime) .BudgetExceedance
    else
      QEvent.finish tid (s.now + job.execTime - job.runTime) .JobCompletion
  { s with eventQueue := s.eventQueue ++ [te] }

/-- `context_switch` in `simulator/handlers.rs`: cancel the running job's
queued events, bank its run time, requeue it as ready; then schedule the new
job's termination and make it the running job. -/
def context_switch (tid : Nat) (s : SimState) : SimState :=
  let s :=
    match s.runningJob with
    | some rid =>
      let s := { s with eventQueue := s.eventQueue.filter fun e => e.taskId ≠ rid }
      let s := s.updateJob rid fun j =>
        { j with runTime := j.runTime + (s.now - s.lastContextSwitch) }
      { s with readyQueue := s.readyQueue ++ [rid] }
    | none => s
  let s := schedule_termination_event tid s
  { s with runningJob := some tid, lastContextSwitch := s.now }

/-- `change_mode` in `simulator/handlers.rs`: record the `ModeChange`;
entering `LMode` re-admits every L-task by scheduling its next start,
entering `HMode` purges L-task events and ready jobs. -/
def change_mode (toMode : SimulatorMode) (s : SimState) : SimState :=
  let s := { s with mode := toMode }
  let s := s.pushHist (.modeChange toMode s.now)
  match toMode with
  | .LMode =>
    { s with eventQueue := s.eventQueue ++
        ((s.tasks.filter fun t => !t.task.isHTask).map fun t =>
          QEvent.start t.task.props.id (max s.now t.next_arrival)) }
  | .HMode =>
    { s with
      eventQueue := s.eventQueue.filter fun e => s.isHId e.taskId
      readyQueue := s.readyQueue.filter fun tid => s.isHId tid }

/-- `run_job` (agentless: the activation hook is not attached). -/
def run_job (tid : Nat) (s : SimState) : SimState :=
  context_switch tid s

/-- `handle_start_event` in `simulator/handlers.rs`. -/
def handle_start_event (tid : Nat) (time : Nat) (s : SimState) : SimState :=
  let s := s.pushHist (.start tid time)
  let s := s.updateTask tid fun t =>
    { t with next_arrival := t.next_arrival + t.task.props.period }
  let s := s.updateJob tid fun j => { j with execTime := (s.findTask tid).acet, runTime := 0 }
  match s.runningJob with
  | none => context_switch tid s
  | some rid =>
    if tid < rid then context_switch tid s
    else { s with readyQueue := s.readyQueue ++ [tid] }

/-- The part of `handle_end_event` before budget-exceedance handling: record
the End event, schedule the task's next Start at `max(now, next_arrival)`,
bank the elapsed run time and clear the running job. -/
def endCorePhase (tid : Nat) (time : Nat) (reason : EndReason)
    (s : SimState) : SimState :=
  let s := s.pushHist (.finish tid time reason)
  let s := { s with eventQueue :=
    s.eventQueue ++ [QEvent.start tid (max s.now (s.findTask tid).next_arrival)] }
  let s := s.updateJob tid fun j =>
    { j with runTime := j.runTime + (s.now - s.lastContextSwitch) }
  { s with runningJob := none }

/-- The budget-exceedance branch of `handle_end_event`: an L-task gets a
`TaskKill` record at the current instant, an H-task triggers the change to
`HMode`. -/
def endBudgetPhase (tid : Nat) (reason : EndReason) (s : SimState) : SimState :=
  if reason = .BudgetExceedance then
    if s.isHId tid then change_mode .HMode s
    else s.pushHist (.taskKill tid s.now)
  else s

/-- The tail of `handle_end_event`: an empty ready queue reverts `HMode` to
`LMode` (and does nothing in `LMode`); otherwise the highest-priority ready
job is popped and dispatched through `run_job`. -/
def endDispatchPhase (s : SimState) : SimState :=
  match popMinId s.readyQueue with
  | none =>
    match s.mode with
    | .LMode => s
    | .HMode => change_mode .LMode s
  | some (jid, rest) => run_job jid { s with readyQueue := rest }

/-- `handle_end_event` in `simulator/handlers.rs`. -/
def handle_end_event (tid : Nat) (time : Nat) (reason : EndReason)
    (s : SimState) : SimState :=
  endDispatchPhase (endBudgetPhase tid reason (endCorePhase tid time reason s))

/-- `SimulatorJob::real_id`: undo the priority encoding of the task id. -/
def realId (s : SimState) (tid : Nat) : Nat :=
  let t := s.findTask tid
  match t.custom_priority with
  | some p => tid - p * MAX_TASKS_SIZE - MAX_TASKS_SIZE
  | none => tid - t.task.props.period * MAX_TASKS_SIZE - MAX_TASKS_SIZE

/-- The id encoding of `Simulator::new`: fold the priority into the task id
so that one integer comparison totally orders tasks. -/
def encodeTask (t : SimulatorTask) : SimulatorTask :=
  match t.custom_priority with
  | some p =>
    { t with task := t.task.withId (p * MAX_TASKS_SIZE + MAX_TASKS_SIZE + t.task.props.id) }
  | none =>
    { t with task :=
        t.task.withId (t.task.props.id + t.task.props.period * MAX_TASKS_SIZE + MAX_TASKS_SIZE) }

/-- `Simulator::new` (agentless): encode ids and build the initial state. -/
def Simulator.new (tasks : List SimulatorTask) : SimState :=
  { tasks := tasks.map encodeTask
    jobs := []
    runningJob := none
    readyQueue := []
    eventQueue := []
    eventHistory := []
    lastContextSwitch := 0
    now := 0
    mode := .LMode
    runningHistory := [] }

/-- `Simulator::init_event_queue` (agentless branch): one Start event at the
offset and one idle job per task. -/
def initEventQueue (s : SimState) : SimState :=
  { s with
    eventQueue := s.eventQueue ++
      s.tasks.map fun t => QEvent.start t.task.props.id t.task.props.offset
    jobs := s.jobs ++ s.tasks.map fun t => (t.task.props.id, (⟨0, 0⟩ : SimJob)) }

/-- The synthesized agent task of `init_event_queue` when an agent is
attached: an `HTask` with `wcet_l = 0`, `wcet_h =
duration_to_time_unit(1µs) = 100`, `period = duration_to_time_unit(10µs) =
1000`, custom priority and acet both `n + 1` for `n` prior tasks
(`SimulatorTask::new_with_custom_priority`). -/
def agentTask (n : Nat) : SimulatorTask :=
  SimulatorTask.new_with_custom_priority (.HTask ⟨n + 1, 0, 100, 0, 1000⟩) (n + 1) (n + 1)

/-- The simulator's task list after `Simulator::new` plus the agent branch
of `init_event_queue`: the encoded tasks with the agent task appended. -/
def tasksWithAgent (tasks : List SimulatorTask) : List SimulatorTask :=
  tasks.map encodeTask ++ [agentTask (tasks.map encodeTask).length]

/-- One iteration of the `while self.now < duration` loop of
`Simulator::fire`: pop the next event, extend the per-tick history up to its
instant with the running job's real id, advance `now` and handle the event.
The fuel argument makes the recursion structural; an empty queue (a `panic`
of the source's `unwrap`) stops the loop. -/
def fireLoop (duration : Nat) : Nat → SimState → SimState
  | 0, s => s
  | fuel + 1, s =>
    if s.now < duration then
      match popMaxEvent s.eventQueue with
      | none => s
      | some (e, rest) =>
        let s := { s with
          runningHistory := s.runningHistory ++
            List.replicate (e.time - s.now) (s.runningJob.map (realId s))
          eventQueue := rest
          now := e.time }
        let s :=
          match e with
          | .start tid time => handle_start_event tid time s
          | .finish tid time reason => handle_end_event tid time reason s
        fireLoop duration fuel s
    else s

/-- Restore real task ids in a recorded event (`change_back_task_ids` runs
before the event history is cloned out, and history events share the task
cells). -/
def restoreEvent (s : SimState) : HEvent → HEvent
  | .start tid t => .start (realId s tid) t
  | .finish tid t r => .finish (realId s tid) t r
  | .taskKill tid t => .taskKill (realId s tid) t
  | .modeChange m t => .modeChange m t

/-- `Simulator::fire::<true>`: run to the horizon and return the per-tick
task-id history and the event history (with original ids restored). The
fuel is generous for the modelled runs and never binds before the horizon
does on them. -/
def fire (tasks : List SimulatorTask) (duration : Nat) :
    List (Option Nat) × List HEvent :=
  let s := initEventQueue (Simulator.new tasks)
  let s := fireLoop duration ((duration + 1) * (tasks.length + 1) * 8 + 8) s
  (s.runningHistory, s.eventHistory.map (restoreEvent s))

/-! Arithmetic bridge between the rational (`f32`-idealizing) recurrence and
the natural-number recurrence of the spec. -/

theorem le_cdiv_mul (a b : Nat) (hb : 0 < b) : a ≤ cdiv a b * b := by
  have h1 := Nat.div_add_mod (a + b - 1) b
  have h2 := Nat.mod_lt (a + b - 1) hb
  unfold cdiv
  rw [Nat.mul_comm]
  omega

theorem cdiv_le_of_le_mul (a b c : Nat) (hb : 0 < b) (h : a ≤ b * c) : cdiv a b ≤ c := by
  unfold cdiv
  rw [Nat.div_le_iff_le_mul_add_pred hb]
  omega

theorem ceil_natCast_div (a b : Nat) : ⌈(a : ℚ) / (b : ℚ)⌉ = (cdiv a b : ℤ) := by
  rcases Nat.eq_zero_or_pos b with hb | hb
  · subst hb
    simp [cdiv]
  · have hbq : (0 : ℚ) < (b : ℚ) := by exact_mod_cast hb
    refine le_antisymm ?_ ?_
    · rw [Int.ceil_le, div_le_iff₀ hbq]
      exact_mod_cast le_cdiv_mul a b hb
    · have hnn : (0 : ℚ) ≤ (a : ℚ) / (b : ℚ) := by positivity
      have hcnn : (0 : ℤ) ≤ ⌈(a : ℚ) / (b : ℚ)⌉ := Int.ceil_nonneg hnn
      have hle : (a : ℚ) / (b : ℚ) ≤ ((⌈(a : ℚ) / (b : ℚ)⌉).toNat : ℚ) := by
        calc (a : ℚ) / (b : ℚ) ≤ (⌈(a : ℚ) / (b : ℚ)⌉ : ℚ) := Int.le_ceil _
          _ = ((⌈(a : ℚ) / (b : ℚ)⌉).toNat : ℚ) := by
              exact_mod_cast (Int.toNat_of_nonneg hcnn).symm
      rw [div_le_iff₀ hbq] at hle
      have h : a ≤ b * (⌈(a : ℚ) / (b : ℚ)⌉).toNat := by
        have := hle.trans (le_of_eq (mul_comm _ _))
        exact_mod_cast this
      have h2 : cdiv a b ≤ (⌈(a : ℚ) / (b : ℚ)⌉).toNat := cdiv_le_of_le_mul a b _ hb h
      omega

theorem rtStep_cast (wcet : Nat) (hp : List SimulatorTask) (mode : SimulatorMode)
    (r : Nat) : rtStep (wcet : ℚ) hp mode (r : ℚ) = ((rtStepN wcet hp mode r : Nat) : ℚ) := by
  unfold rtStep rtStepN
  rw [Nat.cast_add, Nat.cast_list_sum, List.map_map]
  congr 1
  congr 1
  apply List.map_congr_left
  intro t ht
  simp only [Function.comp]
  rw [ceil_natCast_div]
  push_cast
  ring

theorem rtLoop_eq (wcet : Nat) (hp : List SimulatorTask) (mode : SimulatorMode)
    (fuel : Nat) (r : Nat) :
    rtLoop (wcet : ℚ) hp mode fuel (r : ℚ) =
      (rtLoopN wcet hp mode fuel r).map (fun n => (n : ℚ)) := by
  induction fuel generalizing r with
  | zero => rfl
  | succ fuel ih =>
    unfold rtLoop rtLoopN
    simp only [rtStep_cast]
    by_cases h : rtStepN wcet hp mode r = r
    · simp [h]
    · have h2 : ((rtStepN wcet hp mode r : Nat) : ℚ) ≠ (r : ℚ) := by
        exact_mod_cast h
    -- both branches take the recursive path
      simp only [if_neg h2, if_neg h, ih]

/-- The rational fixed-point loop, seeded and stepped on natural inputs,
computes natural values whose final ceiling cast is the identity. -/
theorem response_time_eq_spec (task : SimulatorTask) (tasks : List SimulatorTask)
    (mode : SimulatorMode) :
    response_time task tasks mode = responseTimeSpec task tasks mode := by
  unfold response_time responseTimeSpec
  dsimp only
  rw [rtLoop_eq]
  cases rtLoopN (task.task.props.wcet_in_mode mode)
      (tasks.filter fun t => t.priority < task.priority) mode 100
      (task.task.props.wcet_in_mode mode) with
  | none => rfl
  | some n => simp

/-! ### Conservativity of the approximate mode-change check -/

theorem cdiv_mono_left {a b : Nat} (p : Nat) (h : a ≤ b) : cdiv a p ≤ cdiv b p :=
  Nat.div_le_div_right (by omega)

theorem hInterferenceAt_mono (task : SimulatorTask) (tasks : List SimulatorTask)
    {r r' : Nat} (h : r ≤ r') :
    hInterferenceAt task tasks r ≤ hInterferenceAt task tasks r' := by
  unfold hInterferenceAt
  apply List.sum_le_sum
  intro t ht
  exact Nat.mul_le_mul_right _ (cdiv_mono_left _ h)

/-- Any value the exact mode-change loop returns stays below a bound that
every step image of bounded inputs respects. -/
theorem rtimcLoop_le {whp lint T : Nat} (task : SimulatorTask)
    (tasks : List SimulatorTask)
    (hstep : ∀ r, r ≤ T → whp + hInterferenceAt task tasks r + lint ≤ T) :
    ∀ fuel r out, r ≤ T → rtimcLoop whp task tasks lint fuel r = some out → out ≤ T := by
  intro fuel
  induction fuel with
  | zero => intro r out _ hc; cases hc
  | succ fuel ih =>
    intro r out hr hc
    unfold rtimcLoop at hc
    dsimp only at hc
    by_cases heq : whp + hInterferenceAt task tasks r + lint = r
    · rw [if_pos heq] at hc
      cases hc
      exact hstep r hr
    · rw [if_neg heq] at hc
      exact ih _ _ (hstep r hr) hc

/-- In an H-task-only list, nothing passes the L-task filter. -/
theorem filter_not_h_of_filter_h (tasks : List SimulatorTask)
    (p : SimulatorTask → Bool) :
    ((tasks.filter fun t => t.task.isHTask).filter fun t => !t.task.isHTask && p t) = [] := by
  rw [List.filter_eq_nil_iff]
  intro t ht
  have hm := List.mem_filter.mp ht
  simp [hm.2]

/-- Inside `feasible_mode_changes` the L-task interference is computed over
the H-task-filtered list and is therefore zero (and in particular cannot
panic). -/
theorem interferenceLTasks_filterH (task : SimulatorTask) (tasks : List SimulatorTask)
    (cache : RTCache) :
    interferenceLTasks task (tasks.filter fun t => t.task.isHTask) cache = some 0 := by
  unfold interferenceLTasks
  rw [filter_not_h_of_filter_h]
  rfl

theorem rtimc_approx_eq (task : SimulatorTask) (tasks : List SimulatorTask)
    (cache : RTCache) (htask : task.task.isHTask = true) :
    response_time_in_mode_changes true task (tasks.filter fun t => t.task.isHTask) cache =
      some (some (task.task.props.wcet_in_mode .HMode + 0 +
        hInterferenceAt task (tasks.filter fun t => t.task.isHTask)
          task.task.props.period)) := by
  unfold response_time_in_mode_changes
  rw [htask, interferenceLTasks_filterH]
  rfl

theorem rtimc_exact_eq (task : SimulatorTask) (tasks : List SimulatorTask)
    (cache : RTCache) (htask : task.task.isHTask = true) :
    response_time_in_mode_changes false task (tasks.filter fun t => t.task.isHTask) cache =
      some (rtimcLoop (task.task.props.wcet_in_mode .HMode) task
        (tasks.filter fun t => t.task.isHTask) 0 100
        (task.task.props.wcet_in_mode .HMode)) := by
  unfold response_time_in_mode_changes
  rw [htask, interferenceLTasks_filterH]
  rfl

theorem amcCheck_eq_true_iff (approximate : Bool) (eligible : List SimulatorTask)
    (cache : RTCache) (l : List SimulatorTask) :
    amcCheck approximate eligible cache l = some true ↔
      ∀ t ∈ l, ∃ r, response_time_in_mode_changes approximate t eligible cache =
        some (some r) ∧ r ≤ t.task.props.period := by
  induction l with
  | nil => simp [amcCheck]
  | cons task rest ih =>
    unfold amcCheck
    split
    · rename_i heq
      constructor
      · intro hc; cases hc
      · intro h
        obtain ⟨r, hr2, _⟩ := h task (List.mem_cons_self _ _)
        rw [heq] at hr2
        cases hr2
    · rename_i heq
      constructor
      · intro hc; cases hc
      · intro h
        obtain ⟨r, hr2, _⟩ := h task (List.mem_cons_self _ _)
        rw [heq] at hr2
        cases hr2
    · rename_i r heq
      by_cases hlt : task.task.props.period < r
      · rw [if_pos hlt]
        constructor
        · intro hc; cases hc
        · intro h
          obtain ⟨r2, hr2, hle2⟩ := h task (List.mem_cons_self _ _)
          rw [heq] at hr2
          have := Option.some.inj (Option.some.inj hr2)
          omega
      · rw [if_neg hlt]
        rw [ih]
        constructor
        · intro h t ht
          rcases List.mem_cons.mp ht with hcase | hmem
          · subst hcase
            exact ⟨r, heq, by omega⟩
          · exact h t hmem
        · intro h t ht
          exact h t (List.mem_cons_of_mem _ ht)

/-- A successful approximate check entails a successful AMC-rtb loop. -/
theorem fmc_true_amc {tasks : List SimulatorTask} {cache : RTCache}
    (h : feasible_mode_changes true tasks cache = some true) :
    amcCheck true (tasks.filter fun t => t.task.isHTask) cache
      (tasks.filter fun t => t.task.isHTask) = some true := by
  unfold feasible_mode_changes at h
  dsimp only at h
  cases heq : eq5Check tasks cache (tasks.filter fun t => t.task.isHTask) with
  | none => rw [if_pos rfl, heq] at h; cases h
  | some b =>
    cases b with
    | false => rw [if_pos rfl, heq] at h; cases h
    | true => rw [if_pos rfl, heq] at h; exact h

/-- Claim C1, amended. As stated the claim fails (see the counterexample): the
exact check can reject a task set the approximate check accepts, but only by
exhausting the 100-iteration bound of its fixed-point recurrence. Whenever
`feasible_mode_changes::<true>` returns `true` and the exact recurrence of
`feasible_mode_changes::<false>` converges within its bound for every
H-task, the exact check returns `true` as well: every value the exact
recurrence can converge to is bounded by the approximate single-shot value,
which the approximate check has bounded by the period. -/
theorem claim_C1_approx_conservative_amended (tasks : List SimulatorTask)
    (cache : RTCache)
    (happrox : feasible_mode_changes true tasks cache = some true)
    (hconv : ∀ t ∈ tasks.filter (fun t => t.task.isHTask),
      response_time_in_mode_changes false t (tasks.filter fun t => t.task.isHTask)
        cache ≠ some none) :
    feasible_mode_changes false tasks cache = some true := by
  have hamc := fmc_true_amc happrox
  rw [amcCheck_eq_true_iff] at hamc
  unfold feasible_mode_changes
  dsimp only
  rw [if_neg (by simp)]
  rw [amcCheck_eq_true_iff]
  intro t ht
  have hH : t.task.isHTask = true := by
    have := List.mem_filter.mp ht
    simpa using this.2
  obtain ⟨ra, hra, hrale⟩ := hamc t ht
  rw [rtimc_approx_eq t tasks cache hH] at hra
  have hraval : t.task.props.wcet_in_mode .HMode + 0 +
      hInterferenceAt t (tasks.filter fun t => t.task.isHTask)
        t.task.props.period = ra :=
    Option.some.inj (Option.some.inj hra)
  have hstep : ∀ r, r ≤ t.task.props.period →
      t.task.props.wcet_in_mode .HMode +
        hInterferenceAt t (tasks.filter fun t => t.task.isHTask) r + 0 ≤
      t.task.props.period := by
    intro r hr
    have hmono := hInterferenceAt_mono t (tasks.filter fun t => t.task.isHTask) hr
    omega
  have hseed : t.task.props.wcet_in_mode .HMode ≤ t.task.props.period := by
    have h0 := hstep 0 (Nat.zero_le _)
    omega
  have hexact := rtimc_exact_eq t tasks cache hH
  cases hloop : rtimcLoop (t.task.props.wcet_in_mode .HMode) t
      (tasks.filter fun t => t.task.isHTask) 0 100
      (t.task.props.wcet_in_mode .HMode) with
  | none =>
    exact absurd (by rw [hexact, hloop]) (hconv t ht)
  | some r =>
    refine ⟨r, by rw [hexact, hloop], ?_⟩
    exact rtimcLoop_le t _ hstep 100 _ r hseed hloop

theorem ce_false : feasible_mode_changes false ceTasks ceCache = some false := by
  decide

theorem ce_eq5 :
    eq5Check ceTasks ceCache (List.filter (fun t => t.task.isHTask) ceTasks) =
      some true := by
  norm_num [eq5Check, eq5Interference, cachedRespL, ceTasks, ceCache, mkTask,
    mapOption, Task.props, Task.isHTask, SimulatorTask.priority,
    TaskProps.wcet_in_mode, List.filter]

theorem ce_true : feasible_mode_changes true ceTasks ceCache = some true := by
  unfold feasible_mode_changes
  dsimp only
  rw [ce_eq5]
  decide

theorem ce_consistent : CacheConsistent ceTasks ceCache := by
  intro t ht
  fin_cases ht <;>
    refine Or.inr ?_ <;>
    rw [response_time_eq_spec] <;>
    norm_num [ceCache, ceTasks, mkTask, Task.props] <;>
    decide

/-- Claim C1, counterexample. A concrete task set (with a cache holding exactly
the low-mode response times `response_time` computes) on which the
approximate mode-change check accepts while the exact one rejects: the
heavy H-task's exact recurrence needs 168 iterations to reach its fixed
point 4200 and the 100-iteration bound makes it return `None`. -/
theorem claim_C1_counterexample :
    CacheConsistent ceTasks ceCache ∧
    feasible_mode_changes true ceTasks ceCache = some true ∧
    feasible_mode_changes false ceTasks ceCache = some false :=
  ⟨ce_consistent, ce_true, ce_false⟩

theorem cw_eq5 :
    eq5Check cwTasks ceCache (List.filter (fun t => t.task.isHTask) cwTasks) =
      some true := by
  norm_num [eq5Check, eq5Interference, cachedRespL, cwTasks, ceCache, mkTask,
    mapOption, Task.props, Task.isHTask, SimulatorTask.priority,
    TaskProps.wcet_in_mode, List.filter]

theorem cw_true : feasible_mode_changes true cwTasks ceCache = some true := by
  unfold feasible_mode_changes
  dsimp only
  rw [cw_eq5]
  decide

/-- Witness for the amended conservativity claim at a concrete feasible
set. -/
theorem claim_C1_amended_witness :
    feasible_mode_changes false cwTasks ceCache = some true :=
  claim_C1_approx_conservative_amended cwTasks ceCache cw_true (by decide)

/-! ### Totality of the schedulability entry points -/

theorem fimCheck_rt_isSome {eligible : List SimulatorTask} {mode : SimulatorMode}
    {t : SimulatorTask} (h : fimCheck eligible mode t = true) :
    (response_time t eligible mode).isSome := by
  unfold fimCheck at h
  cases hr : response_time t eligible mode with
  | none => rw [hr] at h; simp at h
  | some r => simp

theorem fim_true_rt_isSome {tasks : List SimulatorTask}
    (h : feasible_in_mode tasks .LMode = true) :
    ∀ t ∈ tasks, (response_time t tasks .LMode).isSome := by
  intro t ht
  unfold feasible_in_mode eligible_in_mode at h
  exact fimCheck_rt_isSome (List.all_eq_true.mp h t ht)

theorem cachedRespL_isSome {cache : RTCache} {t : SimulatorTask}
    {tasks : List SimulatorTask} (h : (response_time t tasks .LMode).isSome) :
    (cachedRespL cache t tasks).isSome := by
  unfold cachedRespL
  cases cache t.task.props.id with
  | some r => simp
  | none =>
    cases hr : response_time t tasks .LMode with
    | none => rw [hr] at h; simp at h
    | some r => simp

theorem mapOption_isSome {f : α → Option β} {l : List α}
    (h : ∀ a ∈ l, (f a).isSome) : (mapOption f l).isSome := by
  induction l with
  | nil => simp [mapOption]
  | cons a l ih =>
    unfold mapOption
    cases hfa : f a with
    | none =>
      have := h a (List.mem_cons_self _ _)
      rw [hfa] at this
      simp at this
    | some b =>
      cases hrec : mapOption f l with
      | none =>
        have := ih fun x hx => h x (List.mem_cons_of_mem _ hx)
        rw [hrec] at this
        simp at this
      | some bs => simp

theorem eq5Interference_isSome {task : SimulatorTask} {tasks : List SimulatorTask}
    {cache : RTCache} (h : ∀ t ∈ tasks, (response_time t tasks .LMode).isSome) :
    (eq5Interference task tasks cache).isSome := by
  unfold eq5Interference
  have hm : (mapOption (fun t =>
      (cachedRespL cache t tasks).map fun q =>
        (⌈q / (t.task.props.period : ℚ)⌉ : ℤ).toNat * t.task.props.wcet_in_mode .LMode)
      (tasks.filter fun t => t.priority < task.priority)).isSome := by
    apply mapOption_isSome
    intro t ht
    have hmem := (List.mem_filter.mp ht).1
    have := @cachedRespL_isSome cache _ _ (h t hmem)
    cases hc : cachedRespL cache t tasks with
    | none => rw [hc] at this; simp at this
    | some q => simp
  cases hm2 : mapOption (fun t =>
      (cachedRespL cache t tasks).map fun q =>
        (⌈q / (t.task.props.period : ℚ)⌉ : ℤ).toNat * t.task.props.wcet_in_mode .LMode)
      (tasks.filter fun t => t.priority < task.priority) with
  | none => rw [hm2] at hm; simp at hm
  | some l => simp

theorem eq5Check_isSome {tasks : List SimulatorTask} {cache : RTCache}
    (h : ∀ t ∈ tasks, (response_time t tasks .LMode).isSome) :
    ∀ l, (∀ t ∈ l, t ∈ tasks) → (eq5Check tasks cache l).isSome := by
  intro l
  induction l with
  | nil => intro _; simp [eq5Check]
  | cons task rest ih =>
    intro hsub
    unfold eq5Check
    have h1 := @eq5Interference_isSome task _ cache h
    have h2 := @cachedRespL_isSome cache _ _ (h task (hsub task (List.mem_cons_self _ _)))
    cases hi : eq5Interference task tasks cache with
    | none => rw [hi] at h1; simp at h1
    | some intf =>
      cases hc : cachedRespL cache task tasks with
      | none => rw [hc] at h2; simp at h2
      | some rlo =>
        dsimp only
        by_cases hgt : task.task.props.wcet_in_mode .LMode + intf > (⌊rlo⌋ : ℤ).toNat
        · rw [if_pos hgt]; simp
        · rw [if_neg hgt]
          exact ih fun t ht => hsub t (List.mem_cons_of_mem _ ht)

theorem rtimc_filterH_isSome (approximate : Bool) (task : SimulatorTask)
    (tasks : List SimulatorTask) (cache : RTCache) :
    (response_time_in_mode_changes approximate task
      (tasks.filter fun t => t.task.isHTask) cache).isSome := by
  unfold response_time_in_mode_changes
  cases hH : task.task.isHTask with
  | false => simp
  | true =>
    rw [interferenceLTasks_filterH]
    cases approximate <;> simp

theorem amcCheck_filterH_isSome (approximate : Bool) (tasks : List SimulatorTask)
    (cache : RTCache) :
    ∀ l, (amcCheck approximate (tasks.filter fun t => t.task.isHTask) cache l).isSome := by
  intro l
  induction l with
  | nil => simp [amcCheck]
  | cons task rest ih =>
    unfold amcCheck
    have h1 := rtimc_filterH_isSome approximate task tasks cache
    cases hr : response_time_in_mode_changes approximate task
        (tasks.filter fun t => t.task.isHTask) cache with
    | none => rw [hr] at h1; simp at h1
    | some o =>
      cases o with
      | none => simp
      | some r =>
        dsimp only
        by_cases hgt : r > task.task.props.period
        · rw [if_pos hgt]; simp
        · rw [if_neg hgt]; exact ih

theorem fmc_false_isSome (tasks : List SimulatorTask) (cache : RTCache) :
    (feasible_mode_changes false tasks cache).isSome := by
  unfold feasible_mode_changes
  dsimp only
  exact amcCheck_filterH_isSome false tasks cache _

theorem fmc_true_isSome {tasks : List SimulatorTask} (cache : RTCache)
    (h : ∀ t ∈ tasks, (response_time t tasks .LMode).isSome) :
    (feasible_mode_changes true tasks cache).isSome := by
  unfold feasible_mode_changes
  dsimp only
  have h5 := @eq5Check_isSome _ cache h
      (tasks.filter fun t => t.task.isHTask)
      (fun t ht => (List.mem_filter.mp ht).1)
  cases heq : eq5Check tasks cache (tasks.filter fun t => t.task.isHTask) with
  | none => rw [heq] at h5; simp at h5
  | some b =>
    cases b with
    | false => simp
    | true => exact amcCheck_filterH_isSome true tasks cache _

/-- Claim C3. The schedulability entry points are total: for every task set and
every cache, `feasible_schedule_design_time` and `feasible_schedule_online`
return a boolean verdict and never panic — non-convergence of the
response-time recurrences and every structural violation surface as a
`false`/`None` somewhere below, not as an abort. The only panic sources,
the `unwrap()`s of low-mode response times, are unreachable: the exact
mode-change check computes its L-task interference over the H-task-filtered
list, and in the online check `feasible_in_mode(LMode)` guards them, its
success guaranteeing every low-mode response time converges. -/
theorem claim_C3_no_panic (tasks : List SimulatorTask) (cache : RTCache) :
    (feasible_schedule_design_time tasks).isSome ∧
    (feasible_schedule_online tasks cache).isSome := by
  constructor
  · unfold feasible_schedule_design_time
    by_cases hL : feasible_in_mode tasks .LMode
    · rw [if_pos hL]
      by_cases hH : feasible_in_mode tasks .HMode
      · rw [if_pos hH]
        exact fmc_false_isSome tasks _
      · rw [if_neg hH]; simp
    · rw [if_neg hL]; simp
  · unfold feasible_schedule_online
    by_cases hL : feasible_in_mode tasks .LMode
    · rw [if_pos hL]
      exact fmc_true_isSome cache (fim_true_rt_isSome hL)
    · rw [if_neg hL]; simp

/-! ### Characterization of per-mode feasibility -/

theorem fimCheck_false_iff (eligible : List SimulatorTask) (mode : SimulatorMode)
    (t : SimulatorTask) :
    fimCheck eligible mode t = false ↔
      t.task.props.wcet_in_mode mode = 0 ∨
      response_time t eligible mode = none ∨
      ∃ r, response_time t eligible mode = some r ∧ t.task.props.period < r := by
  unfold fimCheck
  cases hr : response_time t eligible mode with
  | none => by_cases hw : t.task.props.wcet_in_mode mode = 0 <;> simp [hw]
  | some r =>
    by_cases hw : t.task.props.wcet_in_mode mode = 0
    · simp [hw]
    · simp only [hw]
      by_cases hp : t.task.props.period < r <;> simp [hp, hw]

theorem list_all_eq_false {l : List α} {p : α → Bool} :
    l.all p = false ↔ ∃ x ∈ l, p x = false := by
  constructor
  · intro h
    by_contra hc
    push_neg at hc
    have : l.all p = true := List.all_eq_true.mpr fun x hx => by
      cases hpx : p x with
      | true => rfl
      | false => exact absurd hpx (hc x hx)
    rw [this] at h
    cases h
  · intro ⟨x, hx, hpx⟩
    cases hall : l.all p with
    | true => exact absurd (List.all_eq_true.mp hall x hx) (by rw [hpx]; simp)
    | false => rfl

/-- Claim C6. `feasible_in_mode` restricts the analyzed set to the H-tasks in
`HMode` (everything is eligible in `LMode`), and returns `false` exactly
when some eligible task has zero WCET in the mode, or its response time over
the eligible set diverges, or that response time exceeds its period;
otherwise it returns `true`. -/
theorem claim_C6_feasible_in_mode (tasks : List SimulatorTask) (mode : SimulatorMode) :
    (eligible_in_mode tasks .HMode = tasks.filter fun t => t.task.isHTask) ∧
    (eligible_in_mode tasks .LMode = tasks) ∧
    (feasible_in_mode tasks mode = false ↔
      ∃ t ∈ eligible_in_mode tasks mode,
        t.task.props.wcet_in_mode mode = 0 ∨
        response_time t (eligible_in_mode tasks mode) mode = none ∨
        ∃ r, response_time t (eligible_in_mode tasks mode) mode = some r ∧
          t.task.props.period < r) := by
  refine ⟨rfl, rfl, ?_⟩
  unfold feasible_in_mode
  rw [list_all_eq_false]
  constructor
  · intro ⟨t, ht, hfc⟩
    exact ⟨t, ht, (fimCheck_false_iff _ mode t).mp hfc⟩
  · intro ⟨t, ht, hprop⟩
    exact ⟨t, ht, (fimCheck_false_iff _ mode t).mpr hprop⟩

/-! ### The response-time recurrence and the limits of `f32` exactness -/

theorem rne_intCast (k : ℤ) : rne (k : ℚ) = k := by
  simp [rne, Int.floor_intCast]

theorem rtLoopF32_fixed (w : ℚ) (hp : List SimulatorTask) (mode : SimulatorMode)
    (fuel : Nat) (r : ℚ) (hfuel : fuel ≠ 0) (h : rtStepF32 w hp mode r = r) :
    rtLoopF32 w hp mode fuel r = some r := by
  cases fuel with
  | zero => exact absurd rfl hfuel
  | succ n =>
    unfold rtLoopF32
    dsimp only
    rw [h, if_pos rfl]

/-- The `u64 as f32` cast is exact below the 24-bit significand threshold. -/
theorem f32ofNat_exact {n : Nat} (h : n < 2 ^ 24) : f32ofNat n = (n : ℚ) := by
  rcases Nat.eq_zero_or_pos n with h0 | h0
  · subst h0; simp [f32ofNat, fround]
  have hne : ((n : ℚ)) ≠ 0 := by positivity
  have hnneg : ¬ ((n : ℚ) < 0) := not_lt.mpr (by positivity)
  have hm : Nat.log 2 n ≤ 23 :=
    Nat.lt_succ_iff.mp (Nat.log_lt_of_lt_pow (Nat.pos_iff_ne_zero.mp h0) h)
  have hlog : Int.log 2 ((n : ℚ)) = (Nat.log 2 n : ℤ) := Int.log_natCast 2 n
  have hz : (2 : ℚ) ^ ((Nat.log 2 n : ℤ) - 23) = ((2 : ℚ) ^ (23 - Nat.log 2 n))⁻¹ := by
    rw [show (Nat.log 2 n : ℤ) - 23 = -(((23 - Nat.log 2 n : Nat)) : ℤ) by
      rw [Nat.cast_sub hm]; ring]
    rw [zpow_neg, zpow_natCast]
  have hq : (n : ℚ) / (2 : ℚ) ^ ((Nat.log 2 n : ℤ) - 23) =
      (((n * 2 ^ (23 - Nat.log 2 n) : Nat) : ℤ) : ℚ) := by
    rw [hz, div_eq_mul_inv, inv_inv]
    push_cast
    ring
  simp only [f32ofNat, fround, froundPos]
  rw [if_neg hne, if_neg hnneg, hlog, hq, rne_intCast, hz]
  push_cast
  rw [mul_inv_cancel_right₀ (by positivity)]

theorem fround_c2pow : fround ((2 ^ 25 : Nat) : ℚ) = ((2 ^ 25 : Nat) : ℚ) := by
  have hc : (((2 ^ 25 : Nat)) : ℚ) = 33554432 := by norm_num
  have hlog : Int.log 2 (33554432 : ℚ) = 25 := by
    rw [← hc, Int.log_natCast, Nat.log_pow (by norm_num)]
    norm_num
  simp only [fround, froundPos]
  rw [hc, if_neg (by norm_num), if_neg (by norm_num), hlog]
  rw [show (25 : ℤ) - 23 = ((2 : Nat) : ℤ) by norm_num, zpow_natCast]
  rw [show (33554432 : ℚ) / 2 ^ (2 : Nat) = ((8388608 : ℤ) : ℚ) by norm_num]
  rw [rne_intCast]
  norm_num

theorem fround_c2seed : f32ofNat (2 ^ 25 + 1) = ((2 ^ 25 : Nat) : ℚ) := by
  have hc : (((2 ^ 25 + 1 : Nat)) : ℚ) = 33554433 := by norm_num
  have hlog : Int.log 2 (33554433 : ℚ) = 25 := by
    have h25 : Nat.log 2 (2 ^ 25 + 1) = 25 :=
      Nat.log_eq_of_pow_le_of_lt_pow (by norm_num) (by norm_num)
    rw [← hc, Int.log_natCast, h25]
    norm_num
  simp only [f32ofNat, fround, froundPos]
  rw [hc, if_neg (by norm_num), if_neg (by norm_num), hlog]
  rw [show (25 : ℤ) - 23 = ((2 : Nat) : ℤ) by norm_num, zpow_natCast]
  have hfl : ⌊(33554433 : ℚ) / 2 ^ (2 : Nat)⌋ = 8388608 := by
    rw [Int.floor_eq_iff]
    norm_num
  have hr : rne ((33554433 : ℚ) / 2 ^ (2 : Nat)) = 8388608 := by
    simp only [rne]
    rw [hfl, if_pos (by norm_num)]
  rw [hr]
  norm_num

/-- Claim C2 (amended). `response_time` implements the spec's recurrence over
integer time units — seeded at `R₀ = WCET(task, mode)`, stepped by
`Rₙ₊₁ = WCET(task, mode) + Σ over strictly-higher-priority t of
ceil(Rₙ / period t) * WCET(t, mode)`, iterated at most 100 times, returning
`some` of the fixed point when `Rₙ₊₁ = Rₙ` and `none` otherwise — with its
`f32` values idealized as exact rationals, and the `u64 as f32` casts really
are exact below the 24-bit significand threshold `2^24`. Beyond that
threshold the claim's unqualified exactness fails: the cast rounds, and the
returned value is a fixed point of the rounded recurrence rather than the
spec's (see the counterexample at `wcet = 2^25 + 1`). -/
theorem claim_C2_recurrence_amended (task : SimulatorTask)
    (tasks : List SimulatorTask) (mode : SimulatorMode) :
    response_time task tasks mode = responseTimeSpec task tasks mode ∧
    ∀ n : Nat, n < 2 ^ 24 → f32ofNat n = (n : ℚ) :=
  ⟨response_time_eq_spec task tasks mode, fun _ h => f32ofNat_exact h⟩

/-- Claim C2 is refuted as stated: on a single task with
`wcet_l = wcet_h = 2^25 + 1` (about a third of a second at `10^8` time units
per second), `response_time` under the faithful `f32` model returns
`some (2^25)` — the seed cast `wcet as f32` rounds to nearest-even, the loop
fixes immediately — while the spec's exact recurrence has the fixed point
`2^25 + 1`, so the computed response time is not the recurrence's value. -/
theorem claim_C2_counterexample :
    response_time_f32 c2Task [c2Task] SimulatorMode.LMode = some (2 ^ 25) ∧
    responseTimeSpec c2Task [c2Task] SimulatorMode.LMode = some (2 ^ 25 + 1) ∧
    (some (2 ^ 25) : Option Nat) ≠ some (2 ^ 25 + 1) := by
  refine ⟨?_, by decide, by decide⟩
  have hw : c2Task.task.props.wcet_in_mode SimulatorMode.LMode = 2 ^ 25 + 1 := by decide
  have hfil : ([c2Task].filter fun t => t.priority < c2Task.priority) = [] := by decide
  unfold response_time_f32
  dsimp only
  rw [hw, hfil, fround_c2seed]
  have hstep : rtStepF32 ((2 ^ 25 : Nat) : ℚ) [] SimulatorMode.LMode ((2 ^ 25 : Nat) : ℚ)
      = ((2 ^ 25 : Nat) : ℚ) := by
    unfold rtStepF32
    rw [List.foldl_nil]
    unfold fadd
    rw [add_zero]
    exact fround_c2pow
  rw [rtLoopF32_fixed ((2 ^ 25 : Nat) : ℚ) [] SimulatorMode.LMode 100
    ((2 ^ 25 : Nat) : ℚ) (by norm_num) hstep]
  simp [Int.ceil_natCast]

/-! ### The dropped L-task interference inside `feasible_mode_changes` -/

theorem c4_resp_L : response_time (mkTask false 1 4 4 4 1) c4Tasks .LMode = some 4 := by
  rw [response_time_eq_spec]
  decide

theorem c4_lint :
    interferenceLTasks (mkTask true 2 1 1 4 2) c4Tasks noCache = some 4 := by
  have hfilter : (c4Tasks.filter fun t =>
      !t.task.isHTask && t.priority < (mkTask true 2 1 1 4 2).priority) =
      [mkTask false 1 4 4 4 1] := by decide
  unfold interferenceLTasks
  rw [hfilter]
  unfold mapOption mapOption cachedRespL
  rw [show noCache (mkTask false 1 4 4 4 1).task.props.id = none from rfl, c4_resp_L]
  norm_num [mkTask, Task.props, TaskProps.wcet_in_mode]

/-- Claim C4, code-bug evidence. The claim is right and the code wrong: `feasible_mode_changes`
passes the H-task-filtered `eligible_tasks`, not the full task list, to
`response_time_in_mode_changes`, so the `interference_by_ltasks` term that
function computes (and that its doc comment, the cited AMC paper and the
spec require) is always zero there. On the concrete two-task set `c4Tasks`
(an L-task saturating its period above an H-task), the value the function
computes over the full list is 5 — `wcet_h + ceil(R_lo/period) * wcet_l` —
which exceeds the period 4, yet `feasible_mode_changes` evaluates the
H-task over the filtered list, obtains 1 and accepts the set. -/
theorem claim_C4_ltask_interference_dropped :
    response_time_in_mode_changes false (mkTask true 2 1 1 4 2)
      (c4Tasks.filter fun t => t.task.isHTask) noCache = some (some 1) ∧
    response_time_in_mode_changes false (mkTask true 2 1 1 4 2) c4Tasks noCache =
      some (some 5) ∧
    feasible_mode_changes false c4Tasks noCache = some true := by
  refine ⟨by decide, ?_, by decide⟩
  unfold response_time_in_mode_changes
  rw [c4_lint]
  decide

/-- Claim C5, code-bug evidence. The claim is right and the code wrong: `SimulatorActionPart::reverse`
maps a `WcetIncrease` (which adds `floor(0.1 * wcet_h)`) to a `WcetDecrease`
(which subtracts `floor(0.05 * wcet_h)`), so applying the reverse of a
rejected mutation does not restore `wcet_l`. On a task with `wcet_h = 10`
and `wcet_l = 5`, the increase adds 1 and the reversing decrease subtracts
0, leaving `wcet_l = 6 ≠ 5`. -/
theorem claim_C5_reverse_not_inverse :
    c5Task.task.props.wcet_l = 5 ∧
    ((SimulatorActionPart.WcetIncrease 1).apply [c5Task]).bind
        ((SimulatorActionPart.WcetIncrease 1).reverse.apply) =
      some [mkTask true 1 6 10 100 1] := by
  decide

/-! ### Determinism and the concrete engine scenario -/

/-- Claim C7. Two independent `fire` runs on freshly constructed simulators over
the same task set and horizon produce identical per-tick task-id histories
and identical event histories. In the embedding both runs are the same pure
computation: every source of run-to-run variation is fixed at construction
(`Simulator::new` seeds its random source with the constant 42; the queues
are totally ordered with no observable ties), so determinism holds by
reflexivity of the model. -/
theorem claim_C7_fire_deterministic (tasks : List SimulatorTask) (duration : Nat) :
    let sim1 := initEventQueue (Simulator.new tasks)
    let sim2 := initEventQueue (Simulator.new tasks)
    let run1 := fireLoop duration ((duration + 1) * (tasks.length + 1) * 8 + 8) sim1
    let run2 := fireLoop duration ((duration + 1) * (tasks.length + 1) * 8 + 8) sim2
    run1.runningHistory = run2.runningHistory ∧ run1.eventHistory = run2.eventHistory :=
  ⟨rfl, rfl⟩

/-- Claim C9. Scenario A: on the two-L-task set with periods 4, `fire(10)` yields
exactly the per-tick history `[2, 1, 2, None, 2, 1, 2, None, 2, 1]` and an
event history without any `TaskKill` or `ModeChange` event. -/
theorem claim_C9_scenario_a :
    (fire c9Tasks 10).1 = [some 2, some 1, some 2, none, some 2, some 1, some 2,
      none, some 2, some 1] ∧
    (fire c9Tasks 10).2.all (fun e =>
      match e with
      | .taskKill _ _ => false
      | .modeChange _ _ => false
      | _ => true) = true := by
  exact ⟨by decide, by decide⟩

/-! ### The End-event handler -/

theorem endCorePhase_now (tid time : Nat) (reason : EndReason) (s : SimState) :
    (endCorePhase tid time reason s).now = s.now := rfl

theorem endCorePhase_isHId (tid time : Nat) (reason : EndReason) (s : SimState)
    (x : Nat) : (endCorePhase tid time reason s).isHId x = s.isHId x := rfl

theorem change_mode_mode (m : SimulatorMode) (s : SimState) :
    (change_mode m s).mode = m := by
  cases m <;> rfl

theorem change_mode_now (m : SimulatorMode) (s : SimState) :
    (change_mode m s).now = s.now := by
  cases m <;> rfl

theorem change_mode_hist (m : SimulatorMode) (s : SimState) :
    (change_mode m s).eventHistory = s.eventHistory ++ [HEvent.modeChange m s.now] := by
  cases m <;> rfl

theorem endBudgetPhase_now (tid : Nat) (reason : EndReason) (s : SimState) :
    (endBudgetPhase tid reason s).now = s.now := by
  unfold endBudgetPhase
  by_cases hre : reason = .BudgetExceedance
  · rw [if_pos hre]
    by_cases hH : s.isHId tid = true
    · rw [if_pos hH, change_mode_now]
    · rw [if_neg hH]; rfl
  · rw [if_neg hre]

theorem context_switch_runningJob (tid : Nat) (s : SimState) :
    (context_switch tid s).runningJob = some tid := rfl

/-- Claim C8. The End-event handler: under `BudgetExceedance`, an L-task gets a
`TaskKill` event at the current instant and an H-task triggers the change to
`HMode` (recording `ModeChange(HMode)`); after the budget phase, an empty
ready queue reverts `HMode` to `LMode` (recording `ModeChange(LMode)`) and
does nothing further in `LMode`, while a non-empty ready queue dispatches
its highest-priority (smallest encoded id) job through `run_job`, making it
the running job. -/
theorem claim_C8_end_event (s : SimState) (tid : Nat) (time : Nat) (reason : EndReason) :
    let s2 := endBudgetPhase tid reason (endCorePhase tid time reason s)
    ((reason = .BudgetExceedance ∧ s.isHId tid = false) →
      HEvent.taskKill tid s.now ∈ s2.eventHistory) ∧
    ((reason = .BudgetExceedance ∧ s.isHId tid = true) →
      s2.mode = .HMode ∧ HEvent.modeChange .HMode s.now ∈ s2.eventHistory) ∧
    (s2.readyQueue = [] → s2.mode = .HMode →
      (handle_end_event tid time reason s).mode = .LMode ∧
      HEvent.modeChange .LMode s.now ∈ (handle_end_event tid time reason s).eventHistory) ∧
    (s2.readyQueue = [] → s2.mode = .LMode →
      handle_end_event tid time reason s = s2) ∧
    (∀ jid rest, popMinId s2.readyQueue = some (jid, rest) →
      (handle_end_event tid time reason s).runningJob = some jid) := by
  intro s2
  have hs2 : s2 = endBudgetPhase tid reason (endCorePhase tid time reason s) := rfl
  have hdisp : handle_end_event tid time reason s = endDispatchPhase s2 := rfl
  have hsnow : s2.now = s.now := by
    rw [hs2, endBudgetPhase_now, endCorePhase_now]
  refine ⟨?_, ?_, ?_, ?_, ?_⟩
  · rintro ⟨hre, hH⟩
    subst hre
    rw [hs2]
    unfold endBudgetPhase
    rw [if_pos rfl]
    rw [if_neg (show ¬((endCorePhase tid time .BudgetExceedance s).isHId tid = true) by
      rw [endCorePhase_isHId, hH]; simp)]
    simp [SimState.pushHist, endCorePhase_now]
  · rintro ⟨hre, hH⟩
    subst hre
    rw [hs2]
    unfold endBudgetPhase
    rw [if_pos rfl]
    rw [if_pos (show (endCorePhase tid time .BudgetExceedance s).isHId tid = true by
      rw [endCorePhase_isHId, hH])]
    refine ⟨change_mode_mode _ _, ?_⟩
    rw [change_mode_hist, endCorePhase_now]
    simp
  · intro hq hm
    rw [hdisp]
    unfold endDispatchPhase
    rw [hq, hm]
    rw [show popMinId ([] : List Nat) = none from rfl]
    dsimp only
    refine ⟨change_mode_mode _ _, ?_⟩
    rw [change_mode_hist, hsnow]
    simp
  · intro hq hm
    rw [hdisp]
    unfold endDispatchPhase
    rw [hq, hm]
    rw [show popMinId ([] : List Nat) = none from rfl]
  · intro jid rest hpop
    rw [hdisp]
    unfold endDispatchPhase
    rw [hpop]
    exact context_switch_runningJob jid _

/-! ### The zero-budget agent task makes online validation reject everything -/

theorem replaceFirstTask_mem {tid : Nat} {f : SimulatorTask → SimulatorTask}
    {l : List SimulatorTask} {t : SimulatorTask} (ht : t ∈ l)
    (hid : t.task.props.id ≠ tid) : t ∈ replaceFirstTask tid f l := by
  induction l with
  | nil => cases ht
  | cons a l ih =>
    unfold replaceFirstTask
    by_cases ha : a.task.props.id = tid
    · rw [if_pos ha]
      rcases List.mem_cons.mp ht with hcase | hmem
      · subst hcase; exact absurd ha hid
      · exact List.mem_cons_of_mem _ hmem
    · rw [if_neg ha]
      rcases List.mem_cons.mp ht with hcase | hmem
      · subst hcase; exact List.mem_cons_self _ _
      · exact List.mem_cons_of_mem _ (ih hmem)

theorem apply_mem {a : SimulatorActionPart} {l l' : List SimulatorTask}
    {t : SimulatorTask} (h : a.apply l = some l') (ht : t ∈ l)
    (hid : a.task_id ≠ some t.task.props.id) : t ∈ l' := by
  unfold SimulatorActionPart.apply at h
  cases hti : a.task_id with
  | none => rw [hti] at h; cases h; exact ht
  | some tid =>
    rw [hti] at h
    dsimp only at h
    by_cases hf : ((l.find? fun x => x.task.props.id == tid).isSome : Prop)
    · rw [if_pos hf] at h
      cases h
      refine replaceFirstTask_mem ht ?_
      intro hcontra
      rw [hti, hcontra] at hid
      exact hid rfl
    · rw [if_neg hf] at h
      cases h

theorem applyParts_mem {parts : List SimulatorActionPart}
    {l l' : List SimulatorTask} {t : SimulatorTask}
    (h : applyParts parts l = some l') (ht : t ∈ l)
    (hid : ∀ p ∈ parts, p.task_id ≠ some t.task.props.id) : t ∈ l' := by
  induction parts generalizing l with
  | nil => cases h; exact ht
  | cons p ps ih =>
    unfold applyParts at h
    cases hap : p.apply l with
    | none => rw [hap] at h; cases h
    | some l1 =>
      rw [hap] at h
      exact ih h (apply_mem hap ht (hid p (List.mem_cons_self _ _)))
        fun q hq => hid q (List.mem_cons_of_mem _ hq)

theorem fim_L_false_of_zero {tasks : List SimulatorTask} {t : SimulatorTask}
    (ht : t ∈ tasks) (h0 : t.task.props.wcet_l = 0) :
    feasible_in_mode tasks .LMode = false := by
  unfold feasible_in_mode eligible_in_mode
  rw [list_all_eq_false]
  refine ⟨t, ht, ?_⟩
  unfold fimCheck
  have hw : t.task.props.wcet_in_mode .LMode = 0 := h0
  simp [hw]

theorem fso_false_of_zero {tasks : List SimulatorTask} {t : SimulatorTask}
    (cache : RTCache) (ht : t ∈ tasks) (h0 : t.task.props.wcet_l = 0) :
    feasible_schedule_online tasks cache = some false := by
  unfold feasible_schedule_online
  rw [if_neg (by rw [fim_L_false_of_zero ht h0]; simp)]

/-- Claim C10. When an agent is attached, `init_event_queue` appends a synthesized
`HTask` with `wcet_l = 0` to the simulator's task list. Consequently
`feasible_schedule_online` over that task list — or over any mutation of it
that does not target the agent task's id — returns `false`
(`feasible_in_mode(LMode)` rejects any task with zero low-mode WCET), and
the validation branch of `SimulatorAgent::activate` therefore answers every
non-no-op budget mutation by applying the reversed parts. -/
theorem claim_C10_agent_task_infeasible (ts : List SimulatorTask) (cache : RTCache)
    (parts : List SimulatorActionPart) (ts' : List SimulatorTask)
    (happly : applyParts parts (tasksWithAgent ts) = some ts')
    (hid : ∀ p ∈ parts,
      p.task_id ≠ some (agentTask (ts.map encodeTask).length).task.props.id) :
    (tasksWithAgent ts = ts.map encodeTask ++ [agentTask (ts.map encodeTask).length] ∧
      (agentTask (ts.map encodeTask).length).task.props.wcet_l = 0) ∧
    feasible_schedule_online ts' cache = some false ∧
    (∀ p0, parts.head? = some p0 → p0 ≠ .None →
      activateMutation parts (tasksWithAgent ts) cache =
        applyParts (parts.map SimulatorActionPart.reverse) ts') := by
  have hmem : agentTask (ts.map encodeTask).length ∈ tasksWithAgent ts := by
    unfold tasksWithAgent
    exact List.mem_append_right _ (List.mem_singleton.mpr rfl)
  have hmem' : agentTask (ts.map encodeTask).length ∈ ts' :=
    applyParts_mem happly hmem hid
  have hfso : feasible_schedule_online ts' cache = some false :=
    fso_false_of_zero cache hmem' rfl
  refine ⟨⟨rfl, rfl⟩, hfso, ?_⟩
  intro p0 hp0 hp0ne
  unfold activateMutation
  rw [happly]
  show (match parts.head? with
    | Option.none => none
    | some .None => some ts'
    | some _ =>
      match feasible_schedule_online ts' cache with
      | Option.none => none
      | some true => some ts'
      | some false => applyParts (parts.map SimulatorActionPart.reverse) ts') =
    applyParts (parts.map SimulatorActionPart.reverse) ts'
  rw [hp0, hfso]
  cases p0 with
  | WcetIncrease id => rfl
  | WcetDecrease id => rfl
  | None => exact absurd rfl hp0ne

/-- Witness for the agent-infeasibility claim: one encoded ordinary task
(id 2001) plus the agent task (id 2); a WCET-increase on the ordinary task
leaves the list unchanged (its `wcet_h / 10` amount is 0), and the online
check rejects it. -/
theorem claim_C10_witness :
    feasible_schedule_online (tasksWithAgent c10Tasks) noCache = some false :=
  (claim_C10_agent_task_infeasible c10Tasks noCache
    [SimulatorActionPart.WcetIncrease 2001, .None, .None]
    (tasksWithAgent c10Tasks) (by decide) (by decide)).2.1

end RTSim
